import Mathlib

set_option autoImplicit false
set_option linter.unusedVariables false

namespace Rietveld

/-!
Shallow embedding of codereview/library.py, the Django template library of
Rietveld. External collaborators (memcache, the account store, the current
session) are modelled as explicit state and read-only environments, and every
externally visible operation is recorded in an event trace so that frame
claims (what a call does and does not touch) can be stated.
-/

/-- HTML escaping of one character, following cgi.escape with quote left at
its default: ampersand, less-than and greater-than become entities. -/
def escape_char (c : Char) : String :=
  if c = '&' then "&amp;"
  else if c = '<' then "&lt;"
  else if c = '>' then "&gt;"
  else String.singleton c

/-- Characterwise escaping of a character list. The three sequential replace
calls of cgi.escape are equivalent to one characterwise pass because no
replacement output contains a character replaced later. -/
def cgi_escape_list : List Char → String
  | [] => ""
  | c :: cs => escape_char c ++ cgi_escape_list cs

/-- Embedding of cgi.escape(s) with default quoting. -/
def cgi_escape (s : String) : String :=
  cgi_escape_list s.data

/-- First-match association-list lookup, modelling both a memcache namespace
and a Python dict whose inserts are conses at the front. -/
def lookupA : List (String × String) → String → Option String
  | [], _ => none
  | (k, v) :: rest, key => if k = key then some v else lookupA rest key

/-- Account entity as read by this module: email, nickname, and the flag
user_has_selected_nickname. -/
structure Account where
  email : String
  nickname : String
  user_has_selected_nickname : Bool
deriving DecidableEq

/-- Read-only environment of show_user: the persistent account store
(models.Account.get_account_for_email) and the current logged-in user
(users.get_current_user), given by email. -/
structure World where
  accounts : String → Option Account
  currentUser : Option String

/-- Trace of externally visible operations issued by the library. -/
inductive Event where
  | cacheGet (key : String)
  | cacheGetMulti (keys : List String) (keyPre : String)
  | cacheAdd (key : String) (value : String) (ttl : Nat)
  | dictGet (email : String)
  | dictPut (email : String)
  | storeGetAccount (email : String)
  | storeGetNickname (email : String)
  | logWarn
deriving DecidableEq

/-- Mutable state threaded through show_user: the shared memcache contents and
the event trace. -/
structure MemState where
  cache : List (String × String)
  events : List Event
deriving DecidableEq

/-- Return value of show_user: the string and whether it was passed through
django.utils.safestring.mark_safe. -/
structure SURet where
  value : String
  safe : Bool
deriving DecidableEq

/-- Embedding of memcache.add(key, value, ttl): create-if-absent, an existing
entry is never overwritten. The model is timeless, so the ttl is recorded only
in the event trace. -/
def memcache_add (c : List (String × String)) (key value : String) (ttl : Nat) :
    List (String × String) :=
  match lookupA c key with
  | some _ => c
  | none => (key, value) :: c

/-- Local part of an email as computed at lines 54-56 of library.py: the
portion before the first at sign, or the whole string when there is none. -/
def local_part (email : String) : String :=
  if email.data.contains '@' then String.mk (email.data.takeWhile (fun c => c != '@'))
  else email

/-- Rendering on a cache miss, lines 48-57 of library.py: an anchor fragment
with the escaped nickname both in the href and as the text when an account
exists and has an explicitly selected nickname, otherwise the escaped local
part of the email. -/
def render_fragment (w : World) (email : String) : String :=
  match w.accounts email with
  | some account =>
    if account.user_has_selected_nickname then
      "<a href=\"/user/" ++ cgi_escape account.nickname ++
        "\" onMouseOver=\"M_showUserInfoPopup(this)\">" ++
        cgi_escape account.nickname ++ "</a>"
    else cgi_escape (local_part email)
  | none => cgi_escape (local_part email)

/-- Continuation of show_user after the cache (or batch dict) read produced
ret, lines 46-66 of library.py: on a miss, query the account store, render,
add to memcache with a 300 second ttl, populate the batch dict when present;
finally mark the fragment safe. -/
def show_user_after_read (w : World) (email : String)
    (memcache_results : Option (List (String × String))) (ret : Option String)
    (st : MemState) : SURet × Option (List (String × String)) × MemState :=
  match ret with
  | some v => (⟨v, true⟩, memcache_results, st)
  | none =>
    let v := render_fragment w email
    let st₂ := { st with
      cache := memcache_add st.cache ("show_user:" ++ email) v 300,
      events := st.events ++
        [Event.storeGetAccount email, Event.cacheAdd ("show_user:" ++ email) v 300] }
    match memcache_results with
    | some d =>
      (⟨v, true⟩, some ((email, v) :: d),
        { st₂ with events := st₂.events ++ [Event.dictPut email] })
    | none => (⟨v, true⟩, none, st₂)

/-- Embedding of the show_user filter, lines 31-66 of library.py. The email
has already been normalized to a string; arg is the truthiness of the second
filter argument. Returns the fragment, the possibly updated batch dict, and
the new state. -/
def show_user (w : World) (email : String) (arg : Bool)
    (memcache_results : Option (List (String × String))) (st : MemState) :
    SURet × Option (List (String × String)) × MemState :=
  if arg = false ∧ w.currentUser = some email then
    (⟨"me", false⟩, memcache_results, st)
  else
    match memcache_results with
    | some d =>
      show_user_after_read w email (some d) (lookupA d email)
        { st with events := st.events ++ [Event.dictGet email] }
    | none =>
      show_user_after_read w email none
        (lookupA st.cache ("show_user:" ++ email))
        { st with events := st.events ++ [Event.cacheGet ("show_user:" ++ email)] }

/-- Embedding of memcache.get_multi(keys, key_prefix): the dict mapping each
key with a cached value under its namespaced form back to the bare key. -/
def get_multi (cache : List (String × String)) (keys : List String)
    (keyPre : String) : List (String × String) :=
  keys.filterMap (fun k => Option.map (fun v => (k, v)) (lookupA cache (keyPre ++ k)))

/-- Loop of show_users, line 76-78 of library.py: render each email with the
shared batch dict threaded through. -/
def show_users_go (w : World) (arg : Bool) :
    List String → List (String × String) → MemState → List String × MemState
  | [], _, st => ([], st)
  | e :: rest, d, st =>
    let res := show_user w e arg (some d) st
    let r2 := show_users_go w arg rest (res.2.1.getD d) res.2.2
    (res.1.value :: r2.1, r2.2)

/-- Embedding of the show_users filter, lines 69-78 of library.py. -/
def show_users (w : World) (email_list : List String) (arg : Bool)
    (st : MemState) : SURet × MemState :=
  if email_list = [] then (⟨"", false⟩, st)
  else
    let d := get_multi st.cache email_list "show_user:"
    let st₁ := { st with
      events := st.events ++ [Event.cacheGetMulti email_list "show_user:"] }
    let r2 := show_users_go w arg email_list d st₁
    (⟨String.intercalate ", " r2.1, true⟩, r2.2)

/-- Reference computation calling show_user individually on each element
with no batch dict, threading the state. -/
def show_user_list (w : World) (arg : Bool) :
    List String → MemState → List String × MemState
  | [], st => ([], st)
  | e :: rest, st =>
    let res := show_user w e arg none st
    let r2 := show_user_list w arg rest res.2.2
    (res.1.value :: r2.1, r2.2)

/-- Test for the batch cache read event. -/
def isBatchRead : Event → Bool
  | Event.cacheGetMulti _ _ => true
  | _ => false

/-- Number of batch cache reads in a trace. -/
def countBatchReads (events : List Event) : Nat :=
  events.countP isBatchRead

/-- Ambient HttpRequest as used by get_nickname: the authenticated user (by
email) and the lazily created nickname memoization dict stored on the request
as the attribute named underscore-nicknames. -/
structure Request where
  user : Option String
  nicknames : Option (List (String × String))
deriving DecidableEq

/-- Read-only environment of get_nickname: the persistent nickname store
(models.Account.get_nickname_for_email) and the global current session. -/
structure NickWorld where
  get_nickname_for_email : String → String
  currentUser : Option String

/-- Embedding of get_nickname(email, never_me, request), lines 132-159 of
library.py. The email has already been normalized to a string. Returns the
nickname, the possibly updated request, and the extended event trace. -/
def get_nickname (w : NickWorld) (email : String) (never_me : Bool)
    (request : Option Request) (events : List Event) :
    String × Option Request × List Event :=
  if never_me = false ∧
      (match request with
       | some r => r.user
       | none => w.currentUser) = some email then
    ("me", request, events)
  else
    match request with
    | none =>
      (w.get_nickname_for_email email, none,
        events ++ [Event.logWarn, Event.storeGetNickname email])
    | some r =>
      let m := match r.nicknames with
        | some m => m
        | none => []
      match lookupA m email with
      | some v => (v, some { r with nicknames := some m }, events)
      | none =>
        let result := w.get_nickname_for_email email
        (result, some { r with nicknames := some ((email, result) :: m) },
          events ++ [Event.storeGetNickname email])

/-- Run a sequence of get_nickname calls, each given by an email and a
never_me flag, threading the request through. -/
def run_calls (w : NickWorld) :
    List (String × Bool) → Option Request → Option Request
  | [], request => request
  | (email, nm) :: rest, request =>
    run_calls w rest (get_nickname w email nm request []).2.1

/-- Statement that every entry of a nickname dict is exactly the value the
persistence store returns for that email. -/
def nickMapInv (w : NickWorld) (m : List (String × String)) : Prop :=
  ∀ e v, lookupA m e = some v → v = w.get_nickname_for_email e

/-- Invariant of a request: its nickname dict, when created, satisfies
nickMapInv. -/
def reqInv (w : NickWorld) : Option Request → Prop
  | none => True
  | some r =>
    match r.nicknames with
    | none => True
    | some m => nickMapInv w m

/-- Parsed NicknameNode, lines 162-185 of library.py: the email variable
name, the never_me flag (truthiness of the stripped second argument), and
the is_multi flag set by the nicknames wrapper. -/
structure NicknameNode where
  email_address : String
  never_me : Bool
  is_multi : Bool
deriving DecidableEq

/-- Embedding of the nickname tag compile function, lines 198-210 of
library.py. The token has been split into the tag name and its argument
tokens; a failed tuple unpack of both arities raises TemplateSyntaxError. -/
def nickname (tag_name : String) (args : List String) :
    Except String NicknameNode :=
  match args with
  | [email_address, never_me] =>
    Except.ok ⟨email_address, never_me.trim != "", false⟩
  | [email_address] => Except.ok ⟨email_address, false, false⟩
  | _ => Except.error (tag_name ++ " requires exactly one or two arguments")

/-- Embedding of the nicknames tag, lines 213-218 of library.py: the
nickname tag with is_multi enabled on the resulting node. -/
def nicknames (tag_name : String) (args : List String) :
    Except String NicknameNode :=
  match nickname tag_name args with
  | Except.ok node => Except.ok { node with is_multi := true }
  | Except.error e => Except.error e

/-- Whether tag compilation produced a node rather than raising a template
syntax error. -/
def parses_ok (r : Except String NicknameNode) : Bool :=
  match r with
  | Except.ok _ => true
  | Except.error _ => false

/-- Result of resolving the template variable context against the template
context: the variable may be missing, resolve to None, to an integer, or to
some non-integer value. -/
inductive CtxVal where
  | missing
  | vnone
  | vint (n : Int)
  | vother
deriving DecidableEq

/-- Result of resolving the template variable column_width: missing, None,
or an integer. -/
inductive ColVal where
  | missing
  | cnone
  | cint (n : Int)
deriving DecidableEq

/-- Embedding of UrlAppendViewSettingsNode.render, lines 100-124 of
library.py. The missing case keeps the -1 sentinel, which is an integer but
not positive, and the None case appends a bare context= parameter; a
resolved column_width is formatted whenever it is not None. -/
def urlappend_view_settings_render (ctx : CtxVal) (col : ColVal) : String :=
  let ctx_params : List String :=
    match ctx with
    | CtxVal.vnone => ["context="]
    | CtxVal.vint n => if n > 0 then ["context=" ++ toString n] else []
    | _ => []
  let url_params : List String :=
    ctx_params ++
      (match col with
       | ColVal.cint n => ["column_width=" ++ toString n]
       | _ => [])
  if url_params ≠ [] then "?" ++ String.intercalate "&" url_params else ""

/-- Example account with an explicitly selected nickname. -/
def accBob : Account :=
  ⟨"bob@example.com", "Bob", true⟩

/-- Example world: one account, current user logged in as me@example.com. -/
def wEx : World :=
  ⟨fun e => if e = "bob@example.com" then some accBob else none,
   some "me@example.com"⟩

/-- Example world with no accounts and nobody logged in. -/
def wNoAcct : World :=
  ⟨fun _ => none, none⟩

/-- Example world where the current user is a@x.com. -/
def wMe : World :=
  ⟨fun _ => none, some "a@x.com"⟩

/-- Empty initial state: empty cache, empty trace. -/
def st0 : MemState :=
  ⟨[], []⟩

/-- Example nickname environment. -/
def nwEx : NickWorld :=
  ⟨fun e => "nick:" ++ e, some "me@x.com"⟩

/-- Example fresh request: authenticated as me@x.com, no nickname dict yet. -/
def req0 : Request :=
  ⟨some "me@x.com", none⟩

/-! Helper lemmas about the embedded primitives. -/

theorem string_data_append (a b : String) : (a ++ b).data = a.data ++ b.data := by
  cases a
  cases b
  rfl

theorem string_append_right_inj (p a b : String) (h : p ++ a = p ++ b) : a = b := by
  have hd : p.data ++ a.data = p.data ++ b.data := by
    rw [← string_data_append, ← string_data_append, h]
  cases a
  cases b
  exact congrArg String.mk (List.append_cancel_left hd)

theorem show_user_me_eq (w : World) (email : String) (arg : Bool)
    (mr : Option (List (String × String))) (st : MemState)
    (h : arg = false ∧ w.currentUser = some email) :
    show_user w email arg mr st = (⟨"me", false⟩, mr, st) := by
  rw [show_user.eq_def, if_pos h]

theorem show_user_hit_eq (w : World) (email : String) (arg : Bool) (st : MemState)
    (v : String) (hme : ¬(arg = false ∧ w.currentUser = some email))
    (hhit : lookupA st.cache ("show_user:" ++ email) = some v) :
    show_user w email arg none st =
      (⟨v, true⟩, none,
        { st with events := st.events ++ [Event.cacheGet ("show_user:" ++ email)] }) := by
  rw [show_user.eq_def, if_neg hme]
  simp only [hhit, show_user_after_read]

theorem show_user_miss_eq (w : World) (email : String) (arg : Bool) (st : MemState)
    (hme : ¬(arg = false ∧ w.currentUser = some email))
    (hmiss : lookupA st.cache ("show_user:" ++ email) = none) :
    show_user w email arg none st =
      (⟨render_fragment w email, true⟩, none,
        { st with
          cache := memcache_add st.cache ("show_user:" ++ email)
            (render_fragment w email) 300,
          events := st.events ++
            [Event.cacheGet ("show_user:" ++ email), Event.storeGetAccount email,
             Event.cacheAdd ("show_user:" ++ email) (render_fragment w email) 300] }) := by
  rw [show_user.eq_def, if_neg hme]
  simp only [hmiss, show_user_after_read]
  simp [List.append_assoc]

theorem show_user_dict_hit_eq (w : World) (email : String) (arg : Bool)
    (d : List (String × String)) (st : MemState) (v : String)
    (hme : ¬(arg = false ∧ w.currentUser = some email))
    (hhit : lookupA d email = some v) :
    show_user w email arg (some d) st =
      (⟨v, true⟩, some d,
        { st with events := st.events ++ [Event.dictGet email] }) := by
  rw [show_user.eq_def, if_neg hme]
  simp only [hhit, show_user_after_read]

theorem show_user_dict_miss_eq (w : World) (email : String) (arg : Bool)
    (d : List (String × String)) (st : MemState)
    (hme : ¬(arg = false ∧ w.currentUser = some email))
    (hmiss : lookupA d email = none) :
    show_user w email arg (some d) st =
      (⟨render_fragment w email, true⟩,
        some ((email, render_fragment w email) :: d),
        { st with
          cache := memcache_add st.cache ("show_user:" ++ email)
            (render_fragment w email) 300,
          events := st.events ++
            [Event.dictGet email, Event.storeGetAccount email,
             Event.cacheAdd ("show_user:" ++ email) (render_fragment w email) 300,
             Event.dictPut email] }) := by
  rw [show_user.eq_def, if_neg hme]
  simp only [hmiss, show_user_after_read]
  simp [List.append_assoc]

theorem lookupA_memcache_add_self (c : List (String × String)) (k v : String)
    (ttl : Nat) (h : lookupA c k = none) :
    lookupA (memcache_add c k v ttl) k = some v := by
  simp [memcache_add, h, lookupA]

theorem memcache_add_of_present (c : List (String × String)) (k v : String)
    (ttl : Nat) (h : (lookupA c k).isSome = true) : memcache_add c k v ttl = c := by
  obtain ⟨u, hu⟩ := Option.isSome_iff_exists.mp h
  simp [memcache_add, hu]

theorem intercalate_singleton (s a : String) : String.intercalate s [a] = a := rfl

theorem intercalate_pair (s a b : String) :
    String.intercalate s [a, b] = a ++ s ++ b := rfl

theorem lit_concat (a b c t : String) (h : a ++ b = c) : a ++ (b ++ t) = c ++ t := by
  rw [← String.append_assoc, h]

theorem string_ext (a b : String) (h : a.data = b.data) : a = b := by
  cases a
  cases b
  exact congrArg String.mk h

theorem escape_char_data_ne_nil (c : Char) : (escape_char c).data ≠ [] := by
  by_cases h1 : c = '&' <;> by_cases h2 : c = '<' <;> by_cases h3 : c = '>' <;>
    simp [escape_char, h1, h2, h3, String.singleton]

theorem cgi_escape_list_ne_empty (c : Char) (cs : List Char) :
    cgi_escape_list (c :: cs) ≠ "" := by
  intro h
  have hd : (escape_char c).data ++ (cgi_escape_list cs).data = [] := by
    rw [← string_data_append]
    rw [show escape_char c ++ cgi_escape_list cs = cgi_escape_list (c :: cs) from rfl, h]
  exact escape_char_data_ne_nil c (List.append_eq_nil.mp hd).1

theorem cgi_escape_ne_empty (s : String) (h : s ≠ "") : cgi_escape s ≠ "" := by
  cases hs : s.data with
  | nil => exact absurd (string_ext s "" hs) h
  | cons c cs =>
    rw [cgi_escape, hs]
    exact cgi_escape_list_ne_empty c cs

/-! Theorems settling the claims. -/

/-- C2: for an email equal to the current authenticated user, with the arg
flag falsy, show_user returns exactly the literal string "me" and leaves the
cache, the batch dict, the account store and the event trace untouched. -/
theorem show_user_me_shortcut (w : World) (email : String)
    (mr : Option (List (String × String))) (st : MemState)
    (h : w.currentUser = some email) :
    show_user w email false mr st = (⟨"me", false⟩, mr, st) := by
  rw [show_user.eq_def, if_pos ⟨rfl, h⟩]

/-- Witness for C2 at a concrete world where the current user is a@x.com. -/
theorem show_user_me_shortcut_witness :
    wMe.currentUser = some "a@x.com" ∧
      show_user wMe "a@x.com" false none st0 = (⟨"me", false⟩, none, st0) :=
  ⟨rfl, show_user_me_shortcut wMe "a@x.com" none st0 rfl⟩

/-- Counterexample to C7: on the me shortcut path the returned string is the
plain literal, not marked safe, so the claim that every show_user return value
is marked safe fails. -/
theorem show_user_me_unsafe_cex :
    (show_user wMe "a@x.com" false none st0).1.safe = false := by decide

/-- C7 amended: the return value of show_user is marked safe on every path
except the me shortcut, which returns the plain unmarked string "me". -/
theorem show_user_safe_marking (w : World) (email : String) (arg : Bool)
    (mr : Option (List (String × String))) (st : MemState) :
    (¬(arg = false ∧ w.currentUser = some email) →
      (show_user w email arg mr st).1.safe = true)
    ∧ ((arg = false ∧ w.currentUser = some email) →
      (show_user w email arg mr st).1 = ⟨"me", false⟩) := by
  constructor
  · intro h
    rw [show_user.eq_def, if_neg h]
    cases mr with
    | some d =>
      cases hr : lookupA d email with
      | some v => simp [show_user_after_read, hr]
      | none => simp [show_user_after_read, hr]
    | none =>
      cases hr : lookupA st.cache ("show_user:" ++ email) with
      | some v => simp [show_user_after_read, hr]
      | none => simp [show_user_after_read, hr]
  · intro h
    rw [show_user.eq_def, if_pos h]

/-- Witness for C7 amended: a non-me call returns a safe-marked fragment. -/
theorem show_user_safe_marking_witness :
    (show_user wMe "b@x.com" true none st0).1.safe = true :=
  (show_user_safe_marking wMe "b@x.com" true none st0).1 (by decide)

/-- C8: compiling the nickname and nicknames tags succeeds exactly when one
or two arguments follow the tag name, and raises a template syntax error for
zero or three and more arguments. -/
theorem nickname_tag_arity (t : String) (args : List String) :
    parses_ok (nickname t args) = (args.length == 1 || args.length == 2)
    ∧ parses_ok (nicknames t args) = (args.length == 1 || args.length == 2) := by
  match args with
  | [] => exact ⟨rfl, rfl⟩
  | [a] => exact ⟨rfl, rfl⟩
  | [a, b] => exact ⟨rfl, rfl⟩
  | a :: b :: c :: rest => exact ⟨rfl, rfl⟩

/-- C9: rendering of urlappend_view_settings over all resolution outcomes of
the context and column_width variables: a null context renders a bare
context= parameter, a positive integer context renders context=n, zero and
negative contexts contribute nothing, a resolved column_width renders
column_width=w, parameters are joined with an ampersand with context first
and prefixed with a question mark, and no parameters render the empty
string. -/
theorem urlappend_view_settings_spec :
    urlappend_view_settings_render CtxVal.missing ColVal.missing = ""
    ∧ urlappend_view_settings_render CtxVal.vnone ColVal.missing = "?context="
    ∧ (∀ n : Int, 0 < n →
        urlappend_view_settings_render (CtxVal.vint n) ColVal.missing =
          "?context=" ++ toString n)
    ∧ (∀ n : Int, n ≤ 0 →
        urlappend_view_settings_render (CtxVal.vint n) ColVal.missing = "")
    ∧ (∀ n m : Int, 0 < n →
        urlappend_view_settings_render (CtxVal.vint n) (ColVal.cint m) =
          "?context=" ++ toString n ++ "&column_width=" ++ toString m)
    ∧ (∀ n m : Int, n ≤ 0 →
        urlappend_view_settings_render (CtxVal.vint n) (ColVal.cint m) =
          "?column_width=" ++ toString m)
    ∧ (∀ m : Int,
        urlappend_view_settings_render CtxVal.missing (ColVal.cint m) =
          "?column_width=" ++ toString m)
    ∧ (∀ m : Int,
        urlappend_view_settings_render CtxVal.vnone (ColVal.cint m) =
          "?context=&column_width=" ++ toString m)
    ∧ urlappend_view_settings_render CtxVal.missing ColVal.cnone = ""
    ∧ urlappend_view_settings_render (CtxVal.vint 0) ColVal.missing = ""
    ∧ urlappend_view_settings_render CtxVal.vnone ColVal.cnone = "?context="
    ∧ urlappend_view_settings_render (CtxVal.vint 5) ColVal.missing = "?context=5"
    ∧ urlappend_view_settings_render (CtxVal.vint 5) (ColVal.cint 80) =
        "?context=5&column_width=80" := by
  refine ⟨rfl, rfl, ?_, ?_, ?_, ?_, ?_, ?_, rfl, rfl, rfl, rfl, rfl⟩
  · intro n h
    simp only [urlappend_view_settings_render, if_pos h]
    rw [if_pos (by simp), List.append_nil, intercalate_singleton]
    exact lit_concat "?" "context=" "?context=" (toString n) (by decide)
  · intro n h
    simp only [urlappend_view_settings_render, if_neg (not_lt.mpr h)]
    rfl
  · intro n m h
    simp only [urlappend_view_settings_render, if_pos h]
    rw [if_pos (by simp)]
    show "?" ++ String.intercalate "&"
        ["context=" ++ toString n, "column_width=" ++ toString m] = _
    rw [intercalate_pair,
      String.append_assoc ("context=" ++ toString n) "&" ("column_width=" ++ toString m),
      ← String.append_assoc "?" ("context=" ++ toString n)
        ("&" ++ ("column_width=" ++ toString m)),
      lit_concat "?" "context=" "?context=" (toString n) (by decide),
      lit_concat "&" "column_width=" "&column_width=" (toString m) (by decide)]
    simp [String.append_assoc]
  · intro n m h
    simp only [urlappend_view_settings_render, if_neg (not_lt.mpr h)]
    rw [if_pos (by simp), List.nil_append, intercalate_singleton]
    exact lit_concat "?" "column_width=" "?column_width=" (toString m) (by decide)
  · intro m
    simp only [urlappend_view_settings_render]
    rw [if_pos (by simp), List.nil_append, intercalate_singleton]
    exact lit_concat "?" "column_width=" "?column_width=" (toString m) (by decide)
  · intro m
    simp only [urlappend_view_settings_render]
    rw [if_pos (by simp)]
    show "?" ++ String.intercalate "&"
        ["context=", "column_width=" ++ toString m] = _
    rw [intercalate_pair,
      String.append_assoc "context=" "&" ("column_width=" ++ toString m),
      ← String.append_assoc "?" "context=" ("&" ++ ("column_width=" ++ toString m)),
      lit_concat "&" "column_width=" "&column_width=" (toString m) (by decide),
      show ("?" : String) ++ "context=" = "?context=" from by decide,
      lit_concat "?context=" "&column_width=" "?context=&column_width=" (toString m)
        (by decide)]

/-- Witness for C9 at context 3. -/
theorem urlappend_view_settings_spec_witness :
    urlappend_view_settings_render (CtxVal.vint 3) ColVal.missing = "?context=3" :=
  urlappend_view_settings_spec.2.2.1 3 (by decide)

/-- C1: on a cache miss without the me shortcut, show_user renders an anchor
fragment carrying the escaped nickname both as the href target and as the
link text when an account with an explicitly selected nickname exists, and
otherwise the escaped local part of the email. -/
theorem show_user_cache_miss_rendering (w : World) (email : String) (arg : Bool)
    (st : MemState) (hme : ¬(arg = false ∧ w.currentUser = some email))
    (hmiss : lookupA st.cache ("show_user:" ++ email) = none) :
    (∀ a, w.accounts email = some a → a.user_has_selected_nickname = true →
      (show_user w email arg none st).1.value =
        "<a href=\"/user/" ++ cgi_escape a.nickname ++
          "\" onMouseOver=\"M_showUserInfoPopup(this)\">" ++
          cgi_escape a.nickname ++ "</a>")
    ∧ (∀ a, w.accounts email = some a → a.user_has_selected_nickname = false →
      (show_user w email arg none st).1.value = cgi_escape (local_part email))
    ∧ (w.accounts email = none →
      (show_user w email arg none st).1.value = cgi_escape (local_part email)) := by
  rw [show_user_miss_eq w email arg st hme hmiss]
  refine ⟨?_, ?_, ?_⟩
  · intro a ha hsel
    simp [render_fragment, ha, hsel]
  · intro a ha hsel
    simp [render_fragment, ha, hsel]
  · intro ha
    simp [render_fragment, ha]

/-- Witness for C1: a selected nickname renders a link, and a missing account
renders the escaped local part. -/
theorem show_user_cache_miss_rendering_witness :
    (show_user wEx "bob@example.com" true none st0).1.value =
      "<a href=\"/user/" ++ cgi_escape accBob.nickname ++
        "\" onMouseOver=\"M_showUserInfoPopup(this)\">" ++
        cgi_escape accBob.nickname ++ "</a>" :=
  (show_user_cache_miss_rendering wEx "bob@example.com" true st0 (by decide)
    (by decide)).1 accBob (by decide) (by decide)

/-- Counterexample to C6: an email whose local part is empty has an empty
no-account fragment, so the claim that this path never renders an empty
fragment fails at the input at-example-dot-com. -/
theorem show_user_empty_fragment_cex :
    wNoAcct.accounts "@example.com" = none ∧
      (show_user wNoAcct "@example.com" false none st0).1.value = "" := by
  exact ⟨rfl, by decide⟩

/-- C6 amended: on the no-account path the fragment equals the escaped local
part, hence it is non-empty whenever the local part is non-empty, and empty
exactly when the local part is empty, as for an empty email or an email
starting with the at sign. -/
theorem show_user_no_account_fragment (w : World) (email : String) (arg : Bool)
    (st : MemState) (hme : ¬(arg = false ∧ w.currentUser = some email))
    (hmiss : lookupA st.cache ("show_user:" ++ email) = none)
    (hacct : w.accounts email = none) :
    (show_user w email arg none st).1.value = cgi_escape (local_part email)
    ∧ (local_part email ≠ "" → (show_user w email arg none st).1.value ≠ "")
    ∧ (local_part email = "" → (show_user w email arg none st).1.value = "") := by
  have hval : (show_user w email arg none st).1.value = cgi_escape (local_part email) := by
    rw [show_user_miss_eq w email arg st hme hmiss]
    simp [render_fragment, hacct]
  refine ⟨hval, ?_, ?_⟩
  · intro h
    rw [hval]
    exact cgi_escape_ne_empty (local_part email) h
  · intro h
    rw [hval, h]
    rfl

/-- Witness for C6 amended: a non-empty local part gives a non-empty
fragment. -/
theorem show_user_no_account_fragment_witness :
    (show_user wNoAcct "alice@example.com" true none st0).1.value ≠ "" :=
  (show_user_no_account_fragment wNoAcct "alice@example.com" true st0 (by decide)
    (by decide) (by decide)).2.1 (by decide)

/-- C3: without the me shortcut, a cache miss stores the rendered fragment
under the show_user key with a 300 second ttl through the create-if-absent
add operation, and a second call for the same email, with the entry still
cached, returns that fragment after only a cache read, with no further
account-store query and no further write. -/
theorem show_user_cache_write_then_hit (w : World) (email : String) (arg : Bool)
    (st : MemState) (hme : ¬(arg = false ∧ w.currentUser = some email))
    (hmiss : lookupA st.cache ("show_user:" ++ email) = none) :
    lookupA ((show_user w email arg none st).2.2).cache ("show_user:" ++ email) =
      some ((show_user w email arg none st).1.value)
    ∧ ((show_user w email arg none st).2.2).events =
        st.events ++
          [Event.cacheGet ("show_user:" ++ email), Event.storeGetAccount email,
           Event.cacheAdd ("show_user:" ++ email)
             ((show_user w email arg none st).1.value) 300]
    ∧ (∀ c v₂ ttl, (lookupA c ("show_user:" ++ email)).isSome = true →
        memcache_add c ("show_user:" ++ email) v₂ ttl = c)
    ∧ show_user w email arg none ((show_user w email arg none st).2.2) =
        (⟨(show_user w email arg none st).1.value, true⟩, none,
          { (show_user w email arg none st).2.2 with
            events := ((show_user w email arg none st).2.2).events ++
              [Event.cacheGet ("show_user:" ++ email)] }) := by
  rw [show_user_miss_eq w email arg st hme hmiss]
  refine ⟨?_, rfl, ?_, ?_⟩
  · exact lookupA_memcache_add_self st.cache ("show_user:" ++ email)
      (render_fragment w email) 300 hmiss
  · intro c v₂ ttl h
    exact memcache_add_of_present c ("show_user:" ++ email) v₂ ttl h
  · exact show_user_hit_eq w email arg _ (render_fragment w email) hme
      (lookupA_memcache_add_self st.cache ("show_user:" ++ email)
        (render_fragment w email) 300 hmiss)

/-- Witness for C3: after one miss at a concrete input the fragment is in the
cache under the show_user key. -/
theorem show_user_cache_write_then_hit_witness :
    lookupA ((show_user wNoAcct "alice@x.com" true none st0).2.2).cache
        ("show_user:" ++ "alice@x.com") =
      some ((show_user wNoAcct "alice@x.com" true none st0).1.value) :=
  (show_user_cache_write_then_hit wNoAcct "alice@x.com" true st0 (by decide)
    (by decide)).1

/-- C5: with a request whose nickname dict does not exist yet, and calls that
do not take the me shortcut, the first get_nickname call creates the dict,
queries the store once and memoizes the result, and a second call for the
same email returns the stored value with no further store query and no
change to the request. -/
theorem get_nickname_memoizes (w : NickWorld) (email : String) (nm₁ nm₂ : Bool)
    (r : Request) (evs₁ evs₂ : List Event)
    (hme₁ : ¬(nm₁ = false ∧ r.user = some email))
    (hme₂ : ¬(nm₂ = false ∧ r.user = some email))
    (hfresh : r.nicknames = none) :
    get_nickname w email nm₁ (some r) evs₁ =
      (w.get_nickname_for_email email,
        some { r with nicknames := some [(email, w.get_nickname_for_email email)] },
        evs₁ ++ [Event.storeGetNickname email])
    ∧ get_nickname w email nm₂
        (some { r with
          nicknames := some [(email, w.get_nickname_for_email email)] }) evs₂ =
      (w.get_nickname_for_email email,
        some { r with nicknames := some [(email, w.get_nickname_for_email email)] },
        evs₂) := by
  constructor
  · rw [get_nickname.eq_def, if_neg (by simpa using hme₁)]
    simp [hfresh, lookupA]
  · rw [get_nickname.eq_def, if_neg (by simpa using hme₂)]
    simp [lookupA]

/-- Witness for C5 at a concrete store and request. -/
theorem get_nickname_memoizes_witness :
    get_nickname nwEx "a@x.com" true (some req0) [] =
      ("nick:a@x.com",
        some { req0 with nicknames := some [("a@x.com", "nick:a@x.com")] },
        [Event.storeGetNickname "a@x.com"])
    ∧ get_nickname nwEx "a@x.com" false
        (some { req0 with nicknames := some [("a@x.com", "nick:a@x.com")] }) [] =
      ("nick:a@x.com",
        some { req0 with nicknames := some [("a@x.com", "nick:a@x.com")] },
        []) :=
  get_nickname_memoizes nwEx "a@x.com" true false req0 [] [] (by decide) (by decide)
    (by decide)

theorem get_nickname_preserves_inv (w : NickWorld) (email : String) (nm : Bool)
    (req : Option Request) (evs : List Event) (h : reqInv w req) :
    reqInv w (get_nickname w email nm req evs).2.1 := by
  rw [get_nickname.eq_def]
  split
  · exact h
  · cases req with
    | none => simp [reqInv]
    | some r =>
      cases hn : r.nicknames with
      | none =>
        simp only [hn, lookupA]
        simp only [reqInv]
        intro e v hv
        simp only [lookupA] at hv
        by_cases he : email = e
        · subst he
          simp at hv
          exact hv.symm
        · rw [if_neg he] at hv
          exact absurd hv (by simp [lookupA])
      | some m =>
        have hm : nickMapInv w m := by
          simpa [reqInv, hn] using h
        simp only [hn]
        cases hl : lookupA m email with
        | some v => simpa [reqInv] using hm
        | none =>
          simp only [reqInv]
          intro e v hv
          simp only [lookupA] at hv
          by_cases he : email = e
          · subst he
            simp at hv
            exact hv.symm
          · rw [if_neg he] at hv
            exact hm e v hv

theorem run_calls_preserves_inv (w : NickWorld) (cs : List (String × Bool)) :
    ∀ req, reqInv w req → reqInv w (run_calls w cs req) := by
  induction cs with
  | nil => intro req h; exact h
  | cons c rest ih =>
    intro req h
    exact ih (get_nickname w c.1 c.2 req []).2.1
      (get_nickname_preserves_inv w c.1 c.2 req [] h)

/-- C10: after any sequence of get_nickname calls on a request that starts
with no nickname dict, every entry of the dict maps an email to exactly the
value the persistence store returns for it; the me shortcut returns before
memoization, so the literal returned early is never stored and entries do
not depend on the never_me flag of the call that cached them. -/
theorem get_nickname_map_entries_are_store_values (w : NickWorld)
    (cs : List (String × Bool)) (r : Request) (hfresh : r.nicknames = none) :
    reqInv w (run_calls w cs (some r)) := by
  apply run_calls_preserves_inv
  simp [reqInv, hfresh]

/-- Witness for C10 on a concrete run mixing both never_me flags and a me
hit. -/
theorem get_nickname_map_entries_witness :
    req0.nicknames = none ∧
      reqInv nwEx
        (run_calls nwEx [("a@x.com", true), ("a@x.com", false), ("me@x.com", false)]
          (some req0)) :=
  ⟨rfl, get_nickname_map_entries_are_store_values nwEx
    [("a@x.com", true), ("a@x.com", false), ("me@x.com", false)] req0 rfl⟩

theorem get_multi_cons (c : List (String × String)) (k : String) (ks : List String)
    (pre : String) :
    get_multi c (k :: ks) pre =
      match lookupA c (pre ++ k) with
      | some v => (k, v) :: get_multi c ks pre
      | none => get_multi c ks pre := by
  rw [get_multi, get_multi, List.filterMap_cons]
  cases lookupA c (pre ++ k) <;> rfl

theorem lookupA_get_multi_not_mem (c : List (String × String)) (keys : List String)
    (pre e : String) (he : e ∉ keys) :
    lookupA (get_multi c keys pre) e = none := by
  induction keys with
  | nil => rfl
  | cons k ks ih =>
    have hek : k ≠ e := by
      intro hh
      exact he (hh ▸ List.mem_cons_self k ks)
    have he' : e ∉ ks := fun hh => he (List.mem_cons_of_mem k hh)
    rw [get_multi_cons]
    cases hc : lookupA c (pre ++ k) with
    | none => exact ih he'
    | some v =>
      simp only [lookupA, if_neg hek]
      exact ih he'

theorem lookupA_get_multi_mem (c : List (String × String)) (keys : List String)
    (pre e : String) (he : e ∈ keys) :
    lookupA (get_multi c keys pre) e = lookupA c (pre ++ e) := by
  induction keys with
  | nil => cases he
  | cons k ks ih =>
    rw [get_multi_cons]
    by_cases hek : k = e
    · subst hek
      cases hc : lookupA c (pre ++ k) with
      | some v => simp [lookupA, hc]
      | none =>
        show lookupA (get_multi c ks pre) k = none
        by_cases hk : k ∈ ks
        · rw [ih hk, hc]
        · exact lookupA_get_multi_not_mem c ks pre k hk
    · have he' : e ∈ ks := by
        rcases List.mem_cons.mp he with h | h
        · exact absurd h.symm hek
        · exact h
      cases hc : lookupA c (pre ++ k) with
      | none => exact ih he'
      | some v =>
        simp only [lookupA, if_neg hek]
        exact ih he'

theorem show_user_events_extend (w : World) (email : String) (arg : Bool)
    (mr : Option (List (String × String))) (st : MemState) :
    ∃ δ, (show_user w email arg mr st).2.2.events = st.events ++ δ
      ∧ countBatchReads δ = 0 := by
  by_cases hme : arg = false ∧ w.currentUser = some email
  · refine ⟨[], ?_, rfl⟩
    rw [show_user_me_eq w email arg mr st hme]
    simp
  · cases mr with
    | some d =>
      cases hd : lookupA d email with
      | some v =>
        refine ⟨[Event.dictGet email], ?_, rfl⟩
        rw [show_user_dict_hit_eq w email arg d st v hme hd]
      | none =>
        refine ⟨[Event.dictGet email, Event.storeGetAccount email,
          Event.cacheAdd ("show_user:" ++ email) (render_fragment w email) 300,
          Event.dictPut email], ?_, rfl⟩
        rw [show_user_dict_miss_eq w email arg d st hme hd]
    | none =>
      cases hd : lookupA st.cache ("show_user:" ++ email) with
      | some v =>
        refine ⟨[Event.cacheGet ("show_user:" ++ email)], ?_, rfl⟩
        rw [show_user_hit_eq w email arg st v hme hd]
      | none =>
        refine ⟨[Event.cacheGet ("show_user:" ++ email), Event.storeGetAccount email,
          Event.cacheAdd ("show_user:" ++ email) (render_fragment w email) 300], ?_, rfl⟩
        rw [show_user_miss_eq w email arg st hme hd]

theorem show_users_go_events (w : World) (arg : Bool) (l : List String) :
    ∀ d st, ∃ δ, (show_users_go w arg l d st).2.events = st.events ++ δ
      ∧ countBatchReads δ = 0 := by
  induction l with
  | nil =>
    intro d st
    exact ⟨[], by simp [show_users_go], rfl⟩
  | cons e rest ih =>
    intro d st
    obtain ⟨δ₁, h₁, c₁⟩ := show_user_events_extend w e arg (some d) st
    obtain ⟨δ₂, h₂, c₂⟩ := ih ((show_user w e arg (some d) st).2.1.getD d)
      ((show_user w e arg (some d) st).2.2)
    refine ⟨δ₁ ++ δ₂, ?_, ?_⟩
    · simp only [show_users_go]
      rw [h₂, h₁, List.append_assoc]
    · simp only [countBatchReads, List.countP_append]
      simp only [countBatchReads] at c₁ c₂
      rw [c₁, c₂]

theorem show_users_go_eq (w : World) (arg : Bool) (l : List String) :
    ∀ (d : List (String × String)) (stB stI : MemState),
      stB.cache = stI.cache →
      (∀ e, e ∈ l → lookupA d e = lookupA stB.cache ("show_user:" ++ e)) →
      (show_users_go w arg l d stB).1 = (show_user_list w arg l stI).1
      ∧ (show_users_go w arg l d stB).2.cache = (show_user_list w arg l stI).2.cache := by
  induction l with
  | nil =>
    intro d stB stI hc hinv
    exact ⟨rfl, hc⟩
  | cons e rest ih =>
    intro d stB stI hc hinv
    simp only [show_users_go, show_user_list]
    by_cases hme : arg = false ∧ w.currentUser = some e
    · rw [show_user_me_eq w e arg (some d) stB hme, show_user_me_eq w e arg none stI hme]
      simp only [Option.getD_some]
      obtain ⟨h1, h2⟩ := ih d stB stI hc
        (fun x hx => hinv x (List.mem_cons_of_mem e hx))
      exact ⟨by rw [h1], h2⟩
    · cases hd : lookupA d e with
      | some v =>
        have hB : lookupA stB.cache ("show_user:" ++ e) = some v := by
          rw [← hinv e (List.mem_cons_self e rest), hd]
        have hI : lookupA stI.cache ("show_user:" ++ e) = some v := by
          rw [← hc]
          exact hB
        rw [show_user_dict_hit_eq w e arg d stB v hme hd,
          show_user_hit_eq w e arg stI v hme hI]
        simp only [Option.getD_some]
        obtain ⟨h1, h2⟩ := ih d
          { stB with events := stB.events ++ [Event.dictGet e] }
          { stI with events := stI.events ++ [Event.cacheGet ("show_user:" ++ e)] }
          hc (fun x hx => hinv x (List.mem_cons_of_mem e hx))
        exact ⟨by rw [h1], h2⟩
      | none =>
        have hB : lookupA stB.cache ("show_user:" ++ e) = none := by
          rw [← hinv e (List.mem_cons_self e rest), hd]
        have hI : lookupA stI.cache ("show_user:" ++ e) = none := by
          rw [← hc]
          exact hB
        rw [show_user_dict_miss_eq w e arg d stB hme hd,
          show_user_miss_eq w e arg stI hme hI]
        simp only [Option.getD_some]
        have hcache : memcache_add stB.cache ("show_user:" ++ e)
            (render_fragment w e) 300 =
            memcache_add stI.cache ("show_user:" ++ e) (render_fragment w e) 300 := by
          rw [hc]
        have hinv' : ∀ x, x ∈ rest →
            lookupA ((e, render_fragment w e) :: d) x =
              lookupA (memcache_add stB.cache ("show_user:" ++ e)
                (render_fragment w e) 300) ("show_user:" ++ x) := by
          intro x hx
          by_cases hex : e = x
          · subst hex
            rw [lookupA_memcache_add_self stB.cache ("show_user:" ++ e)
              (render_fragment w e) 300 hB]
            simp [lookupA]
          · have hkey : ("show_user:" ++ e) ≠ ("show_user:" ++ x) := by
              intro hh
              exact hex (string_append_right_inj "show_user:" e x hh)
            simp only [memcache_add, hB, lookupA, if_neg hex, if_neg hkey]
            exact hinv x (List.mem_cons_of_mem e hx)
        obtain ⟨h1, h2⟩ := ih ((e, render_fragment w e) :: d)
          { stB with
            cache := memcache_add stB.cache ("show_user:" ++ e)
              (render_fragment w e) 300,
            events := stB.events ++
              [Event.dictGet e, Event.storeGetAccount e,
               Event.cacheAdd ("show_user:" ++ e) (render_fragment w e) 300,
               Event.dictPut e] }
          { stI with
            cache := memcache_add stI.cache ("show_user:" ++ e)
              (render_fragment w e) 300,
            events := stI.events ++
              [Event.cacheGet ("show_user:" ++ e), Event.storeGetAccount e,
               Event.cacheAdd ("show_user:" ++ e) (render_fragment w e) 300] }
          hcache hinv'
        exact ⟨by rw [h1], h2⟩

/-- C4: show_users on the empty list returns the empty string with no cache
call at all; on a non-empty list it issues exactly one batch cache read with
the show_user key namespace and returns the individual show_user renders in
input order joined with a comma and space, identical in value to calling
show_user on each element in sequence. -/
theorem show_users_batch_spec (w : World) (l : List String) (arg : Bool)
    (st : MemState) :
    (l = [] → show_users w l arg st = (⟨"", false⟩, st))
    ∧ (l ≠ [] →
        (show_users w l arg st).1.value =
          String.intercalate ", " (show_user_list w arg l st).1
        ∧ ∃ es, (show_users w l arg st).2.events =
            st.events ++ Event.cacheGetMulti l "show_user:" :: es
            ∧ countBatchReads es = 0) := by
  constructor
  · intro h
    rw [show_users.eq_def, if_pos h]
  · intro h
    rw [show_users.eq_def, if_neg h]
    simp only []
    constructor
    · have hmain := show_users_go_eq w arg l (get_multi st.cache l "show_user:")
        { st with events := st.events ++ [Event.cacheGetMulti l "show_user:"] } st
        rfl
        (fun e he => lookupA_get_multi_mem st.cache l "show_user:" e he)
      rw [hmain.1]
    · obtain ⟨δ, hδ, cδ⟩ := show_users_go_events w arg l
        (get_multi st.cache l "show_user:")
        { st with events := st.events ++ [Event.cacheGetMulti l "show_user:"] }
      refine ⟨δ, ?_, cδ⟩
      rw [hδ, List.append_assoc]
      rfl

/-- Witness for C4 on a concrete two-element list. -/
theorem show_users_batch_spec_witness :
    (show_users wEx ["bob@example.com", "alice@x.com"] true st0).1.value =
      String.intercalate ", "
        (show_user_list wEx true ["bob@example.com", "alice@x.com"] st0).1 :=
  ((show_users_batch_spec wEx ["bob@example.com", "alice@x.com"] true st0).2
    (by decide)).1

end Rietveld
